import Mathlib

/-!
Verification of the data-acquisition and aggregation engine of the
tier1-traders-watch repository.

The embedding follows the two source files that carry the algorithmic
content:

* scripts/polymarket_api.js : fetchWithRetry, fetchWalletPositions,
  fetchWalletValue, batchFetch;
* scripts/compute_aggregates.js : fetchAllPortfolios, aggregatePortfolios,
  processRecentChanges and their helpers.

JavaScript numbers are modelled as rationals (money, prices, sizes) and
integers (timestamps, HTTP statuses); a field that can be `undefined` in
the loosely typed JSON is an `Option`.  `Math.round(x)` in JavaScript is
`Int.floor (x + 1/2)` (round half toward positive infinity).
-/

/-! ## Resilient HTTP client (scripts/polymarket_api.js, fetchWithRetry) -/

/-- Outcome of one call to `fetch` inside the retry loop: either the
promise rejects (transport-level/network failure) or a response arrives
with an HTTP status, a status text and a parsed JSON body. -/
inductive Attempt (α : Type) where
  | netError (msg : String)
  | response (status : Nat) (statusText : String) (body : α)
deriving DecidableEq

/-- Result of `fetchWithRetry`: the parsed body on a 2xx response, a
raised exception, or `undefined` (the loop in the source has no `return`
after it, so exhausting all attempts on 429/5xx falls off the end of the
function). -/
inductive RetryResult (α : Type) where
  | success (v : α)
  | thrown (msg : String)
  | undef
deriving DecidableEq

/-- Message of the error object thrown for a non-2xx, non-retried status:
`HTTP ${response.status}: ${response.statusText}`. -/
def httpMsg (status : Nat) (statusText : String) : String :=
  "HTTP " ++ toString status ++ ": " ++ statusText

/-- Configuration fields read by `fetchWithRetry`. -/
structure RetryConfig where
  retry_attempts : Option Nat := none
  retry_base_delay_ms : Option Nat := none
deriving DecidableEq

/-- `config.retry_attempts || 3` — a JavaScript `||`, so `0` also falls
back to the default. -/
def maxRetriesOf (cfg : RetryConfig) : Nat :=
  match cfg.retry_attempts with
  | some n => if n = 0 then 3 else n
  | none => 3

/-- `config.retry_base_delay_ms || 1000`. -/
def baseDelayOf (cfg : RetryConfig) : Nat :=
  match cfg.retry_base_delay_ms with
  | some n => if n = 0 then 1000 else n
  | none => 1000

/-- The `for (let attempt = 0; attempt < maxRetries; attempt++)` loop of
`fetchWithRetry`.  `f` gives the outcome of the fetch on each attempt,
`fuel` is `maxRetries - attempt`.  Returns the result together with the
list of backoff sleeps performed, in order. -/
def fetchGo {α : Type} (f : Nat → Attempt α) (base maxR : Nat) :
    Nat → Nat → RetryResult α × List Nat
  | _, 0 => (RetryResult.undef, [])
  | attempt, fuel + 1 =>
    match f attempt with
    | Attempt.netError msg =>
      if attempt = maxR - 1 then (RetryResult.thrown msg, [])
      else
        let r := fetchGo f base maxR (attempt + 1) fuel
        (r.1, base * 2 ^ attempt :: r.2)
    | Attempt.response status statusText body =>
      if status = 429 then
        let r := fetchGo f base maxR (attempt + 1) fuel
        (r.1, base * 2 ^ attempt :: r.2)
      else if 500 ≤ status then
        let r := fetchGo f base maxR (attempt + 1) fuel
        (r.1, base * 2 ^ attempt :: r.2)
      else if 200 ≤ status ∧ status < 300 then
        (RetryResult.success body, [])
      else
        -- `throw new Error(...)` inside the try block: caught by the catch
        if attempt = maxR - 1 then (RetryResult.thrown (httpMsg status statusText), [])
        else
          let r := fetchGo f base maxR (attempt + 1) fuel
          (r.1, base * 2 ^ attempt :: r.2)

/-- `fetchWithRetry(url, options, config)` with the sequence of fetch
outcomes abstracted as `f`. -/
def fetchWithRetry {α : Type} (f : Nat → Attempt α) (cfg : RetryConfig) :
    RetryResult α × List Nat :=
  fetchGo f (baseDelayOf cfg) (maxRetriesOf cfg) 0 (maxRetriesOf cfg)

/-- The statuses the loop retries on without throwing: 429 and 5xx. -/
def isRetriable {α : Type} : Attempt α → Bool
  | Attempt.netError _ => false
  | Attempt.response status _ _ => status = 429 ∨ 500 ≤ status

/-- The HTTP status of an attempt, when the fetch did not reject. -/
def statusOf {α : Type} : Attempt α → Option Nat
  | Attempt.netError _ => none
  | Attempt.response status _ _ => some status

/-- The body of an attempt when it is a 2xx response (`response.ok`). -/
def okBodyOf {α : Type} : Attempt α → Option α
  | Attempt.netError _ => none
  | Attempt.response status _ body =>
    if 200 ≤ status ∧ status < 300 then some body else none

/-- True on the `thrown` constructor only. -/
def RetryResult.isThrown {α : Type} : RetryResult α → Bool
  | RetryResult.thrown _ => true
  | _ => false

/-- True on the `success` constructor only. -/
def RetryResult.isSuccess {α : Type} : RetryResult α → Bool
  | RetryResult.success _ => true
  | _ => false

/-! ### Loop lemmas -/

/-- Splitting off the first backoff delay from a run of `n + 1` delays. -/
theorem range_pow_shift (base attempt n : Nat) :
    (List.range (n + 1)).map (fun j => base * 2 ^ (attempt + j)) =
      base * 2 ^ attempt :: (List.range n).map (fun j => base * 2 ^ (attempt + 1 + j)) := by
  rw [List.range_succ_eq_map]
  simp only [List.map_cons, List.map_map, Nat.add_zero]
  congr 1
  apply List.map_congr_left
  intro j _
  simp only [Function.comp_apply]
  have h : attempt + Nat.succ j = attempt + 1 + j := by omega
  rw [h]

/-- The loop only consults attempts `attempt, …, attempt+fuel-1`. -/
theorem fetchGo_congr {α : Type} (f g : Nat → Attempt α) (base maxR : Nat) :
    ∀ (fuel attempt : Nat),
      (∀ i, attempt ≤ i → i < attempt + fuel → f i = g i) →
      fetchGo f base maxR attempt fuel = fetchGo g base maxR attempt fuel := by
  intro fuel
  induction fuel with
  | zero => intro attempt _; rfl
  | succ n ih =>
    intro attempt h
    have hat : f attempt = g attempt := h attempt le_rfl (by omega)
    have hrec : fetchGo f base maxR (attempt + 1) n =
        fetchGo g base maxR (attempt + 1) n := by
      apply ih
      intro i h1 h2
      exact h i (by omega) (by omega)
    simp only [fetchGo, hat, hrec]

/-- If every attempt in the window is a retriable (429/5xx) response, the
loop falls through and the result is `undef`, with one backoff sleep per
attempt. -/
theorem fetchGo_all_retriable {α : Type} (f : Nat → Attempt α) (base maxR : Nat) :
    ∀ (fuel attempt : Nat),
      (∀ i, attempt ≤ i → i < attempt + fuel → isRetriable (f i) = true) →
      fetchGo f base maxR attempt fuel =
        (RetryResult.undef, (List.range fuel).map (fun j => base * 2 ^ (attempt + j))) := by
  intro fuel
  induction fuel with
  | zero => intro attempt _; rfl
  | succ n ih =>
    intro attempt h
    have hat : isRetriable (f attempt) = true := h attempt le_rfl (by omega)
    have hrec : fetchGo f base maxR (attempt + 1) n =
        (RetryResult.undef, (List.range n).map (fun j => base * 2 ^ (attempt + 1 + j))) := by
      apply ih
      intro i h1 h2
      exact h i (by omega) (by omega)
    cases hf : f attempt with
    | netError msg => simp [isRetriable, hf] at hat
    | response status statusText body =>
      rw [hf] at hat
      simp only [isRetriable, decide_eq_true_eq] at hat
      rcases hat with h429 | h5xx
      · subst h429
        simp [fetchGo, hf, hrec, range_pow_shift]
      · have hne : ¬ status = 429 := by omega
        simp [fetchGo, hf, hne, h5xx, hrec, range_pow_shift]

/-- If every attempt in the window rejects at the transport level, the
catch block rethrows on the last attempt: the loop ends with the final
error. -/
theorem fetchGo_all_netError {α : Type} (f : Nat → Attempt α) (base maxR : Nat)
    (msgs : Nat → String) :
    ∀ (fuel attempt : Nat), 0 < fuel → attempt + fuel = maxR →
      (∀ i, attempt ≤ i → i < maxR → f i = Attempt.netError (msgs i)) →
      (fetchGo f base maxR attempt fuel).1 = RetryResult.thrown (msgs (maxR - 1)) := by
  intro fuel
  induction fuel with
  | zero => intro attempt h; omega
  | succ n ih =>
    intro attempt _ htot h
    have hat : f attempt = Attempt.netError (msgs attempt) := h attempt le_rfl (by omega)
    by_cases hlast : attempt = maxR - 1
    · subst hlast
      simp [fetchGo, hat]
    · have hn : 0 < n := by omega
      have hrec : (fetchGo f base maxR (attempt + 1) n).1 =
          RetryResult.thrown (msgs (maxR - 1)) := by
        apply ih (attempt + 1) hn (by omega)
        intro i h1 h2
        exact h i (by omega) h2
      simp only [fetchGo, hat, if_neg hlast, hrec]

/-- Backoff determinism: `k` leading 429 responses followed by a 2xx
response yield the success body after exactly `k` sleeps of
`base * 2 ^ attempt` each. -/
theorem fetchGo_backoff {α : Type} (f : Nat → Attempt α) (base maxR : Nat) (v : α) :
    ∀ (k attempt fuel : Nat), k < fuel →
      (∀ i, i < k → statusOf (f (attempt + i)) = some 429) →
      okBodyOf (f (attempt + k)) = some v →
      fetchGo f base maxR attempt fuel =
        (RetryResult.success v, (List.range k).map (fun j => base * 2 ^ (attempt + j))) := by
  intro k
  induction k with
  | zero =>
    intro attempt fuel hfuel _ hok
    obtain ⟨fuel', rfl⟩ : ∃ fuel', fuel = fuel' + 1 := ⟨fuel - 1, by omega⟩
    cases hf : f (attempt + 0) with
    | netError msg => rw [hf] at hok; simp [okBodyOf] at hok
    | response status statusText body =>
      rw [hf] at hok
      simp only [okBodyOf] at hok
      by_cases hrange : 200 ≤ status ∧ status < 300
      · rw [if_pos hrange] at hok
        have hbody : body = v := by simpa using hok
        have h429 : ¬ status = 429 := by omega
        have h5xx : ¬ 500 ≤ status := by omega
        have hf0 : f attempt = Attempt.response status statusText body := by
          simpa using hf
        simp [fetchGo, hf0, if_neg h429, if_neg h5xx, if_pos hrange, hbody]
      · rw [if_neg hrange] at hok; simp at hok
  | succ k ih =>
    intro attempt fuel hfuel h429s hok
    obtain ⟨fuel', rfl⟩ : ∃ fuel', fuel = fuel' + 1 := ⟨fuel - 1, by omega⟩
    have hat : statusOf (f (attempt + 0)) = some 429 := h429s 0 (by omega)
    cases hf : f (attempt + 0) with
    | netError msg => rw [hf] at hat; simp [statusOf] at hat
    | response status statusText body =>
      rw [hf] at hat
      simp only [statusOf, Option.some.injEq] at hat
      have hrec : fetchGo f base maxR (attempt + 1) fuel' =
          (RetryResult.success v,
            (List.range k).map (fun j => base * 2 ^ (attempt + 1 + j))) := by
        apply ih (attempt + 1) fuel' (by omega)
        · intro i hi
          have := h429s (i + 1) (by omega)
          simpa [Nat.add_assoc, Nat.add_comm 1 i] using this
        · have := hok
          simpa [Nat.add_assoc, Nat.add_comm 1 k] using this
      have hf0 : f attempt = Attempt.response status statusText body := by
        simpa using hf
      subst hat
      simp [fetchGo, hf0, hrec, range_pow_shift]

/-- The loop runs `maxRetries` attempts and `maxRetriesOf` is never 0
(`retry_attempts || 3` replaces the falsy 0 by the default). -/
theorem maxRetriesOf_pos (cfg : RetryConfig) : 0 < maxRetriesOf cfg := by
  unfold maxRetriesOf
  cases cfg.retry_attempts with
  | none => norm_num
  | some n =>
    by_cases h : n = 0
    · norm_num [h]
    · simp only [if_neg h]
      omega

/-! ## Wallet endpoint wrappers and batch entries
(scripts/polymarket_api.js, fetchWalletPositions / fetchWalletValue /
batchFetch) -/

/-- One position object as returned by the `/positions` endpoint and
consumed by compute_aggregates.js.  Fields that may be `undefined` (or
`null`) in the JSON are `Option`s. -/
structure Position where
  conditionId : String
  outcomeIndex : Option Int := none
  outcome : Option String := none
  size : Option ℚ := none
  avgPrice : Option ℚ := none
  curPrice : Option ℚ := none
  currentValue : Option ℚ := none
  cashPnl : Option ℚ := none
  pnl : Option ℚ := none
  title : Option String := none
  slug : Option String := none
  icon : Option String := none
  eventSlug : Option String := none
deriving DecidableEq

/-- One row of the `/value` endpoint's response array. -/
structure ValueRow where
  value : Option ℚ := none
deriving DecidableEq

/-- A per-address entry of the map returned by `batchFetch`:
`{success: true, data}` or `{success: false, error}`. -/
inductive BatchEntry (α : Type) where
  | success (data : α)
  | failure (error : String)
deriving DecidableEq

/-- The try/catch around `fetchFn` in `batchFetch.processNext`
(polymarket_api.js lines 193-199): a resolved value becomes a success
entry, a raised error becomes a failure entry carrying the message. -/
def mkBatchEntry {α : Type} : Except String α → BatchEntry α
  | Except.ok v => BatchEntry.success v
  | Except.error m => BatchEntry.failure m

/-- `fetchWalletPositions`: `data || []` on the retry client's result; a
raised error propagates to the caller. -/
def fetchWalletPositions (f : Nat → Attempt (Option (List Position)))
    (cfg : RetryConfig) : Except String (List Position) :=
  match (fetchWithRetry f cfg).1 with
  | RetryResult.thrown m => Except.error m
  | RetryResult.undef => Except.ok []
  | RetryResult.success none => Except.ok []
  | RetryResult.success (some l) => Except.ok l

/-- `fetchWalletValue`: `0` when the body is missing or empty, else
`parseFloat(data[0]?.value || 0)`. -/
def fetchWalletValue (f : Nat → Attempt (Option (List ValueRow)))
    (cfg : RetryConfig) : Except String ℚ :=
  match (fetchWithRetry f cfg).1 with
  | RetryResult.thrown m => Except.error m
  | RetryResult.undef => Except.ok 0
  | RetryResult.success none => Except.ok 0
  | RetryResult.success (some []) => Except.ok 0
  | RetryResult.success (some (r :: _)) => Except.ok (r.value.getD 0)

/-! ## Claim C1 -/

/-- Claim C1, counterexample.  With the default configuration, a request
whose three attempts all return HTTP 429 does not raise the final error
after exhausting its retries: `fetchWithRetry` falls off the end of its
loop and returns `undefined` (after the three backoff sleeps
1000, 2000, 4000 ms).  The claim's "after exhausting those retries it
fails with the final error (raises an exception…)" is therefore false on
the 429/5xx path. -/
theorem fetchWithRetry_429_exhaustion_cex :
    (fetchWithRetry
        (fun _ => Attempt.response 429 "Too Many Requests"
          (none : Option (List Position))) {}).1 = RetryResult.undef ∧
    RetryResult.isThrown
      (fetchWithRetry
        (fun _ => Attempt.response 429 "Too Many Requests"
          (none : Option (List Position))) {}).1 = false ∧
    (fetchWithRetry
        (fun _ => Attempt.response 429 "Too Many Requests"
          (none : Option (List Position))) {}).2 = [1000, 2000, 4000] := by
  refine ⟨rfl, rfl, rfl⟩

/-- Claim C1, amended.  `fetchWithRetry` makes at most
`config.retry_attempts` attempts (default 3): the result only depends on
the first `maxRetries` fetch outcomes.  When every attempt is a
transport-level failure it raises the final attempt's error; when every
attempt is an HTTP 429 or ≥500 response it exits the loop and returns
`undefined` — not a success value, but also not a raised exception. -/
theorem fetchWithRetry_exhaustion_behavior {α : Type} (cfg : RetryConfig)
    (f g : Nat → Attempt α) (msgs : Nat → String) :
    maxRetriesOf {} = 3 ∧
    ((∀ i, i < maxRetriesOf cfg → f i = g i) →
      fetchWithRetry f cfg = fetchWithRetry g cfg) ∧
    ((∀ i, i < maxRetriesOf cfg → f i = Attempt.netError (msgs i)) →
      (fetchWithRetry f cfg).1 = RetryResult.thrown (msgs (maxRetriesOf cfg - 1))) ∧
    ((∀ i, i < maxRetriesOf cfg → isRetriable (f i) = true) →
      (fetchWithRetry f cfg).1 = RetryResult.undef ∧
      RetryResult.isSuccess (fetchWithRetry f cfg).1 = false ∧
      RetryResult.isThrown (fetchWithRetry f cfg).1 = false) := by
  refine ⟨rfl, ?_, ?_, ?_⟩
  · intro h
    exact fetchGo_congr f g (baseDelayOf cfg) (maxRetriesOf cfg) (maxRetriesOf cfg) 0
      (fun i h1 h2 => h i (by omega))
  · intro h
    exact fetchGo_all_netError f (baseDelayOf cfg) (maxRetriesOf cfg) msgs
      (maxRetriesOf cfg) 0 (maxRetriesOf_pos cfg) (by omega)
      (fun i h1 h2 => h i h2)
  · intro h
    have hr := fetchGo_all_retriable f (baseDelayOf cfg) (maxRetriesOf cfg)
      (maxRetriesOf cfg) 0 (fun i h1 h2 => h i (by omega))
    unfold fetchWithRetry
    rw [hr]
    exact ⟨rfl, rfl, rfl⟩

/-- Claim C1, witness: the amended theorem applied to an all-netError
oracle and an all-429 oracle, with the default configuration. -/
theorem fetchWithRetry_exhaustion_behavior_witness :
    (fetchWithRetry (fun _ => Attempt.netError "socket hang up" : Nat → Attempt Nat) {}).1 =
      RetryResult.thrown "socket hang up" ∧
    (fetchWithRetry (fun _ => Attempt.response 503 "Service Unavailable" (0 : Nat)) {}).1 =
      RetryResult.undef := by
  constructor
  · exact (fetchWithRetry_exhaustion_behavior {}
      (fun _ => Attempt.netError "socket hang up")
      (fun _ => Attempt.netError "socket hang up")
      (fun _ => "socket hang up")).2.2.1 (fun i _ => rfl)
  · exact ((fetchWithRetry_exhaustion_behavior {}
      (fun _ => Attempt.response 503 "Service Unavailable" (0 : Nat))
      (fun _ => Attempt.response 503 "Service Unavailable" (0 : Nat))
      (fun _ => "")).2.2.2 (fun i _ => by decide)).1

/-! ## Claim C4 -/

/-- Claim C4: a request whose first `k` attempts receive HTTP 429 and
whose attempt `k` gets a 2xx response (`k < retry_attempts`) returns the
success body and performs exactly `k` backoff sleeps with delays
`base_delay_ms * 2^0, …, base_delay_ms * 2^(k-1)`, in that order, with no
jitter. -/
theorem fetchWithRetry_backoff_determinism {α : Type} (cfg : RetryConfig)
    (f : Nat → Attempt α) (k : Nat) (v : α)
    (hk : k < maxRetriesOf cfg)
    (h429 : ∀ i, i < k → statusOf (f i) = some 429)
    (hok : okBodyOf (f k) = some v) :
    fetchWithRetry f cfg =
      (RetryResult.success v,
        (List.range k).map (fun i => baseDelayOf cfg * 2 ^ i)) := by
  have := fetchGo_backoff f (baseDelayOf cfg) (maxRetriesOf cfg) v k 0
    (maxRetriesOf cfg) hk (by simpa using h429) (by simpa using hok)
  unfold fetchWithRetry
  rw [this]
  simp

/-- Claim C4, witness: two 429 responses then a 200 response, under the
default configuration (3 attempts, 1000 ms base delay): success value 7
after exactly the sleeps 1000 ms and 2000 ms. -/
theorem fetchWithRetry_backoff_determinism_witness :
    fetchWithRetry
        (fun i => if i < 2 then Attempt.response 429 "Too Many Requests" (0 : Nat)
                  else Attempt.response 200 "OK" 7) {} =
      (RetryResult.success 7, [1000, 2000]) := by
  have h := fetchWithRetry_backoff_determinism {}
    (fun i => if i < 2 then Attempt.response 429 "Too Many Requests" (0 : Nat)
              else Attempt.response 200 "OK" 7) 2 7
    (by decide) (by decide) (by decide)
  rw [h]
  rfl

/-! ## Claim C10 -/

/-- Claim C10: when every attempt of a request ends in an HTTP 429 or
≥500 response (no exception), `fetchWithRetry` returns `undefined`;
consequently `fetchWalletPositions` resolves to `[]`,
`fetchWalletValue` resolves to `0`, and the `batchFetch` try/catch
records the address as a success entry with that empty data — not as a
failure entry. -/
theorem persistent_rate_limit_recorded_success (cfg : RetryConfig)
    (fp : Nat → Attempt (Option (List Position)))
    (fv : Nat → Attempt (Option (List ValueRow)))
    (hp : ∀ i, i < maxRetriesOf cfg → isRetriable (fp i) = true)
    (hv : ∀ i, i < maxRetriesOf cfg → isRetriable (fv i) = true) :
    (fetchWithRetry fp cfg).1 = RetryResult.undef ∧
    fetchWalletPositions fp cfg = Except.ok [] ∧
    fetchWalletValue fv cfg = Except.ok 0 ∧
    mkBatchEntry (fetchWalletPositions fp cfg) = BatchEntry.success [] ∧
    mkBatchEntry (fetchWalletValue fv cfg) = BatchEntry.success 0 := by
  have hrp := fetchGo_all_retriable fp (baseDelayOf cfg) (maxRetriesOf cfg)
    (maxRetriesOf cfg) 0 (fun i h1 h2 => hp i (by omega))
  have hrv := fetchGo_all_retriable fv (baseDelayOf cfg) (maxRetriesOf cfg)
    (maxRetriesOf cfg) 0 (fun i h1 h2 => hv i (by omega))
  have hp1 : (fetchWithRetry fp cfg).1 = RetryResult.undef := by
    unfold fetchWithRetry; rw [hrp]
  have hv1 : (fetchWithRetry fv cfg).1 = RetryResult.undef := by
    unfold fetchWithRetry; rw [hrv]
  refine ⟨hp1, ?_, ?_, ?_, ?_⟩ <;>
    simp [fetchWalletPositions, fetchWalletValue, mkBatchEntry, hp1, hv1]

/-- Claim C10, witness: all attempts rate-limited under the default
configuration. -/
theorem persistent_rate_limit_recorded_success_witness :
    fetchWalletPositions (fun _ => Attempt.response 429 "Too Many Requests" none) {} =
      Except.ok [] ∧
    fetchWalletValue (fun _ => Attempt.response 500 "Internal Server Error" none) {} =
      Except.ok 0 := by
  have h := persistent_rate_limit_recorded_success {}
    (fun _ => Attempt.response 429 "Too Many Requests" none)
    (fun _ => Attempt.response 500 "Internal Server Error" none)
    (fun _ _ => rfl) (fun _ _ => rfl)
  exact ⟨h.2.1, h.2.2.1⟩

/-! ## Bounded batch fetcher (scripts/polymarket_api.js, batchFetch)

The scheduling loop keeps a FIFO `queue`, an `inFlight` set and a
`results` map.  `processNext` synchronously shifts the queue head and
adds it to `inFlight`; the awaited `fetchFn` later resolves or rejects,
upon which the task writes its entry into `results` and leaves
`inFlight`.  We model this as a transition system: a `launch` step may
fire whenever there is free capacity (the guard of the inner `while`),
and a `complete` step may fire for any in-flight address (tasks finish in
arbitrary order).  Every interleaving the JavaScript event loop can
produce is a trace of this relation. -/

/-- The mutable state of one `batchFetch` run. -/
structure BatchState (α : Type) where
  queue : List String
  inFlight : List String
  results : List (String × BatchEntry α)
deriving DecidableEq

/-- `results.set(address, entry)`: overwrite in place when the key
exists, append otherwise (JavaScript `Map` semantics). -/
def setResult {α : Type} (res : List (String × BatchEntry α)) (a : String)
    (e : BatchEntry α) : List (String × BatchEntry α) :=
  if res.any (fun p => p.1 = a) then
    res.map (fun p => if p.1 = a then (p.1, e) else p)
  else res ++ [(a, e)]

/-- One transition of the `batchFetch` scheduling loop. -/
inductive BatchStep {α : Type} (fetchFn : String → Except String α) (C : Nat) :
    BatchState α → BatchState α → Prop
  | launch (a : String) (q fl : List String) (res : List (String × BatchEntry α)) :
      fl.length < C →
      BatchStep fetchFn C ⟨a :: q, fl, res⟩ ⟨q, fl ++ [a], res⟩
  | complete (a : String) (q fl : List String) (res : List (String × BatchEntry α)) :
      a ∈ fl →
      BatchStep fetchFn C ⟨q, fl, res⟩
        ⟨q, fl.erase a, setResult res a (mkBatchEntry (fetchFn a))⟩

/-- The state at the top of the `while` loop: full queue, nothing in
flight, empty results. -/
def initBatch {α : Type} (addresses : List String) : BatchState α :=
  ⟨addresses, [], []⟩

/-- `setResult` on a fresh key appends the entry. -/
theorem setResult_not_mem {α : Type} (res : List (String × BatchEntry α))
    (a : String) (e : BatchEntry α) (h : a ∉ res.map Prod.fst) :
    setResult res a e = res ++ [(a, e)] := by
  unfold setResult
  rw [if_neg]
  intro hc
  rcases List.any_eq_true.mp hc with ⟨p, hp, he⟩
  exact h (List.mem_map.mpr ⟨p, hp, by simpa using he⟩)

/-- Invariant of the scheduling loop: the result keys, the in-flight set
and the queue together are a permutation of the input address list, and
every recorded entry is the converted outcome of `fetchFn` on its key. -/
theorem batch_invariant {α : Type} (fetchFn : String → Except String α) (C : Nat)
    (addresses : List String) (hnd : addresses.Nodup) (s : BatchState α)
    (h : Relation.ReflTransGen (BatchStep fetchFn C) (initBatch addresses) s) :
    List.Perm (s.results.map Prod.fst ++ s.inFlight ++ s.queue) addresses ∧
    ∀ p ∈ s.results, p.2 = mkBatchEntry (fetchFn p.1) := by
  induction h with
  | refl => simp [initBatch]
  | tail hsteps hstep ih =>
    rcases ih with ⟨hperm, hentries⟩
    cases hstep with
    | launch a q fl res hcap =>
      refine ⟨?_, hentries⟩
      refine List.Perm.trans ?_ hperm
      rw [List.perm_iff_count]
      intro x
      simp only [List.count_append, List.count_cons, List.count_nil]
      omega
    | complete a q fl res hmem =>
      have hLnodup : (res.map Prod.fst ++ fl ++ q).Nodup := hperm.symm.nodup hnd
      have hdisj : a ∉ res.map Prod.fst := by
        rcases List.nodup_append.mp (List.nodup_append.mp
          (by simpa [List.append_assoc] using hLnodup)).1 with ⟨h1, h2, h3⟩
        exact fun hc => h3 hc hmem
      rw [setResult_not_mem res a (mkBatchEntry (fetchFn a)) hdisj]
      constructor
      · refine List.Perm.trans ?_ hperm
        rw [List.perm_iff_count]
        intro x
        have hcnt : 0 < fl.count a := List.count_pos_iff.mpr hmem
        simp only [List.map_append, List.count_append, List.map_cons, List.map_nil,
          List.count_cons, List.count_nil, List.count_erase]
        by_cases hx : a = x
        · subst hx; simp; omega
        · have h1 : (a == x) = false := by simpa using hx
          simp [h1]
      · intro p hp
        rcases List.mem_append.mp hp with h1 | h2
        · exact hentries p h1
        · simp only [List.mem_singleton] at h2
          subst h2
          rfl

/-! ## Claim C2 -/

/-- Claim C2: in any completed `batchFetch` run (queue drained, nothing
in flight) over distinct addresses, the result map has exactly one entry
per input address — its key list is a duplicate-free permutation of the
input — and every entry is the caught-and-converted outcome of `fetchFn`
(success data or failure message), so per-task exceptions never escape to
the caller. -/
theorem batchFetch_results_complete {α : Type} (fetchFn : String → Except String α)
    (C : Nat) (addresses : List String) (hnd : addresses.Nodup) (s : BatchState α)
    (h : Relation.ReflTransGen (BatchStep fetchFn C) (initBatch addresses) s)
    (hq : s.queue = []) (hfl : s.inFlight = []) :
    List.Perm (s.results.map Prod.fst) addresses ∧
    (s.results.map Prod.fst).Nodup ∧
    ∀ p ∈ s.results, p.2 = mkBatchEntry (fetchFn p.1) := by
  obtain ⟨hperm, hentries⟩ := batch_invariant fetchFn C addresses hnd s h
  rw [hq, hfl] at hperm
  simp only [List.append_nil] at hperm
  exact ⟨hperm, hperm.symm.nodup hnd, hentries⟩

/-! ## Claim C3 -/

/-- Claim C3: in every reachable state of the `batchFetch` scheduling
loop, the in-flight set holds at most `concurrency` addresses — a task is
only launched under the guard `inFlight.size < concurrency`. -/
theorem batchFetch_inflight_bounded {α : Type} (fetchFn : String → Except String α)
    (C : Nat) (addresses : List String) (s : BatchState α)
    (h : Relation.ReflTransGen (BatchStep fetchFn C) (initBatch addresses) s) :
    s.inFlight.length ≤ C := by
  induction h with
  | refl => simp [initBatch]
  | tail hsteps hstep ih =>
    cases hstep with
    | launch a q fl res hcap => simpa using hcap
    | complete a q fl res hmem =>
      calc (fl.erase a).length ≤ fl.length := fl.length_erase_le a
      _ ≤ C := ih

/-- A concrete four-step trace of the scheduler: two addresses, one
fetch succeeding and one rejecting, concurrency 1. -/
theorem exampleBatchTrace :
    Relation.ReflTransGen
      (BatchStep (fun a => if a = "a" then Except.ok (1 : Nat) else Except.error "boom") 1)
      (initBatch ["a", "b"])
      ⟨[], [], [("a", BatchEntry.success 1), ("b", BatchEntry.failure "boom")]⟩ := by
  have s1 : BatchStep (fun a => if a = "a" then Except.ok (1 : Nat) else Except.error "boom") 1
      (initBatch ["a", "b"]) ⟨["b"], ["a"], []⟩ :=
    BatchStep.launch "a" ["b"] [] [] (by decide)
  have s2 : BatchStep (fun a => if a = "a" then Except.ok (1 : Nat) else Except.error "boom") 1
      ⟨["b"], ["a"], []⟩ ⟨["b"], [], [("a", BatchEntry.success 1)]⟩ := by
    have := @BatchStep.complete Nat
      (fun a => if a = "a" then Except.ok (1 : Nat) else Except.error "boom") 1
      "a" ["b"] ["a"] [] (List.Mem.head _)
    simpa [setResult, mkBatchEntry] using this
  have s3 : BatchStep (fun a => if a = "a" then Except.ok (1 : Nat) else Except.error "boom") 1
      ⟨["b"], [], [("a", BatchEntry.success 1)]⟩
      ⟨[], ["b"], [("a", BatchEntry.success 1)]⟩ :=
    BatchStep.launch "b" [] [] [("a", BatchEntry.success 1)] (by decide)
  have s4 : BatchStep (fun a => if a = "a" then Except.ok (1 : Nat) else Except.error "boom") 1
      ⟨[], ["b"], [("a", BatchEntry.success 1)]⟩
      ⟨[], [], [("a", BatchEntry.success 1), ("b", BatchEntry.failure "boom")]⟩ := by
    have := @BatchStep.complete Nat
      (fun a => if a = "a" then Except.ok (1 : Nat) else Except.error "boom") 1
      "b" [] ["b"] [("a", BatchEntry.success 1)] (List.Mem.head _)
    simpa [setResult, mkBatchEntry] using this
  exact Relation.ReflTransGen.tail
    (Relation.ReflTransGen.tail
      (Relation.ReflTransGen.tail
        (Relation.ReflTransGen.tail Relation.ReflTransGen.refl s1) s2) s3) s4

/-- Claim C2, witness: the completed trace above yields one entry per
address, keys a permutation of the input, and the failure converted, not
propagated. -/
theorem batchFetch_results_complete_witness :
    List.Perm ([("a", BatchEntry.success (1 : Nat)),
      ("b", BatchEntry.failure "boom")].map Prod.fst) ["a", "b"] ∧
    ([("a", BatchEntry.success (1 : Nat)),
      ("b", BatchEntry.failure "boom")].map Prod.fst).Nodup ∧
    ∀ p ∈ [("a", BatchEntry.success (1 : Nat)), ("b", BatchEntry.failure "boom")],
      p.2 = mkBatchEntry ((fun a =>
        if a = "a" then Except.ok (1 : Nat) else Except.error "boom") p.1) := by
  exact batchFetch_results_complete
    (fun a => if a = "a" then Except.ok (1 : Nat) else Except.error "boom")
    1 ["a", "b"] (by decide)
    ⟨[], [], [("a", BatchEntry.success 1), ("b", BatchEntry.failure "boom")]⟩
    exampleBatchTrace rfl rfl

/-- Claim C3, witness: along the same trace, the state after the first
launch has one task in flight, within the bound `concurrency = 1`. -/
theorem batchFetch_inflight_bounded_witness :
    ((⟨["b"], ["a"], []⟩ : BatchState Nat)).inFlight.length ≤ 1 := by
  exact batchFetch_inflight_bounded
    (fun a => if a = "a" then Except.ok (1 : Nat) else Except.error "boom")
    1 ["a", "b"] ⟨["b"], ["a"], []⟩
    (Relation.ReflTransGen.tail Relation.ReflTransGen.refl
      (BatchStep.launch "a" ["b"] [] [] (by decide)))

/-! ## Shared numeric and JavaScript-coercion helpers
(compute_aggregates.js) -/

/-- JavaScript `Math.round`: round half toward positive infinity. -/
def jsRound (x : ℚ) : Int := Int.floor (x + 1 / 2)

/-- `Math.round(x * 100) / 100` — round to 2 decimals. -/
def round2 (x : ℚ) : ℚ := (jsRound (x * 100) : ℚ) / 100

/-- `Math.round(x * 10) / 10` — round to 1 decimal. -/
def round1 (x : ℚ) : ℚ := (jsRound (x * 10) : ℚ) / 10

/-- `parseFloat(x || y || 0)` on two optional numeric fields: JavaScript
`||` skips `undefined` and the falsy `0`. -/
def jsNumOr (x y : Option ℚ) : ℚ :=
  match x with
  | some v => if v = 0 then y.getD 0 else v
  | none => y.getD 0

/-- `x || d` on an optional string field: `undefined` and the falsy empty
string both fall back to the default. -/
def jsStrOr (x : Option String) (d : String) : String :=
  match x with
  | some s => if s = "" then d else s
  | none => d

/-! ## Activity windowing engine
(compute_aggregates.js, processRecentChanges) -/

/-- One activity event from the `/activity` endpoint, after the fetch
layer tagged it with `traderAddress`/`traderLabel`. -/
structure ActivityEvent where
  timestamp : Option Int := none
  type : Option String := none
  side : Option String := none
  usdcSize : Option ℚ := none
  size : Option ℚ := none
  price : Option ℚ := none
  outcome : Option String := none
  outcomeIndex : Option Int := none
  conditionId : Option String := none
  title : Option String := none
  slug : Option String := none
  eventSlug : Option String := none
  traderLabel : Option String := none
  traderAddress : Option String := none
  proxyWallet : Option String := none
deriving DecidableEq

/-- The retention filter `a.type === 'TRADE' || !a.type` (and the
equivalent skip `a.type && a.type !== 'TRADE'` in the 24h change map):
kept when the type is TRADE or falsy. -/
def isTradeType (t : Option String) : Bool :=
  t = some "TRADE" ∨ t = none ∨ t = some ""

/-- `a.timestamp || 0`. -/
def tsOf (a : ActivityEvent) : Int := a.timestamp.getD 0

/-- The signed delta of an event: `+parseFloat(a.usdcSize || a.size || 0)`
for BUY, the negation otherwise. -/
def deltaOf (a : ActivityEvent) : ℚ :=
  if a.side = some "BUY" then jsNumOr a.usdcSize a.size
  else -(jsNumOr a.usdcSize a.size)

/-- The five rolling windows. -/
inductive WindowName where
  | w1h | w6h | w24h | w7d | w30d
deriving DecidableEq

/-- Window length in seconds, as in the `windows` object. -/
def windowDur : WindowName → Int
  | WindowName.w1h => 3600
  | WindowName.w6h => 6 * 3600
  | WindowName.w24h => 24 * 3600
  | WindowName.w7d => 7 * 24 * 3600
  | WindowName.w30d => 30 * 24 * 3600

/-- The per-window membership test `ts >= threshold` with
`threshold = now - window`. -/
def inWindow (now : Int) (w : WindowName) (a : ActivityEvent) : Bool :=
  now - windowDur w ≤ tsOf a

/-- The `windowSummaries` accumulator object. -/
structure WindowSummaries where
  w1h : ℚ
  w6h : ℚ
  w24h : ℚ
  w7d : ℚ
  w30d : ℚ
deriving DecidableEq

/-- Projection of a window bucket by name. -/
def getW (ws : WindowSummaries) : WindowName → ℚ
  | WindowName.w1h => ws.w1h
  | WindowName.w6h => ws.w6h
  | WindowName.w24h => ws.w24h
  | WindowName.w7d => ws.w7d
  | WindowName.w30d => ws.w30d

/-- Processing one retained event: add its delta to every window whose
cutoff its timestamp satisfies. -/
def addWindows (now : Int) (ws : WindowSummaries) (a : ActivityEvent) :
    WindowSummaries :=
  { w1h := ws.w1h + (if inWindow now WindowName.w1h a then deltaOf a else 0)
    w6h := ws.w6h + (if inWindow now WindowName.w6h a then deltaOf a else 0)
    w24h := ws.w24h + (if inWindow now WindowName.w24h a then deltaOf a else 0)
    w7d := ws.w7d + (if inWindow now WindowName.w7d a then deltaOf a else 0)
    w30d := ws.w30d + (if inWindow now WindowName.w30d a then deltaOf a else 0) }

/-- The final 2-decimal rounding of each bucket. -/
def roundWS (ws : WindowSummaries) : WindowSummaries :=
  { w1h := round2 ws.w1h
    w6h := round2 ws.w6h
    w24h := round2 ws.w24h
    w7d := round2 ws.w7d
    w30d := round2 ws.w30d }

/-- One emitted change record. -/
structure ChangeRecord where
  timestamp : Int
  trader : Option String
  traderAddress : Option String
  market : String
  marketSlug : String
  eventSlug : String
  conditionId : String
  outcome : String
  outcomeIndex : Option Int
  action : String
  delta : ℚ
  size : ℚ
  price : ℚ
deriving DecidableEq

/-- Building the change record for one retained event. -/
def mkChangeRecord (a : ActivityEvent) : ChangeRecord :=
  let fallback := a.proxyWallet.map (fun p => p.take 10)
  { timestamp := tsOf a
    trader :=
      match a.traderLabel with
      | some s => if s = "" then fallback else some s
      | none => fallback
    traderAddress :=
      match a.traderAddress with
      | some s => if s = "" then a.proxyWallet else some s
      | none => a.proxyWallet
    market := jsStrOr a.title "Unknown Market"
    marketSlug := a.slug.getD ""
    eventSlug := a.eventSlug.getD ""
    conditionId := a.conditionId.getD ""
    outcome :=
      let o := a.outcome.getD ""
      match a.outcomeIndex with
      | some i => if o = "" then (if i = 0 then "No" else "Yes") else o
      | none => o
    outcomeIndex := a.outcomeIndex
    action :=
      if a.side = some "BUY" then "increased"
      else if a.side = some "SELL" then "decreased"
      else "unknown"
    delta := round2 (deltaOf a)
    size := a.size.getD 0
    price := a.price.getD 0 }

/-- `processRecentChanges(activity, traderPortfolios)` (the portfolio
argument is unused by the source function); `now` is
`Math.floor(Date.now() / 1000)`. -/
def processRecentChanges (now : Int) (activity : List ActivityEvent) :
    List ChangeRecord × WindowSummaries :=
  let retained := activity.filter (fun a => isTradeType a.type)
  (retained.map mkChangeRecord,
    roundWS (retained.foldl (addWindows now) ⟨0, 0, 0, 0, 0⟩))

/-- Reference sum of deltas of the events inside a window. -/
def windowSum (now : Int) (w : WindowName) : List ActivityEvent → ℚ
  | [] => 0
  | a :: l => (if inWindow now w a then deltaOf a else 0) + windowSum now w l

/-- Unrolling the accumulation loop into the reference sum. -/
theorem foldl_addWindows (now : Int) (w : WindowName) :
    ∀ (l : List ActivityEvent) (ws : WindowSummaries),
      getW (l.foldl (addWindows now) ws) w = getW ws w + windowSum now w l := by
  intro l
  induction l with
  | nil => intro ws; simp [windowSum]
  | cons a l ih =>
    intro ws
    simp only [List.foldl_cons, windowSum, ih]
    cases w <;> simp [getW, addWindows] <;> ring

/-! ## Claim C8 -/

/-- Claim C8: every retained event (type TRADE or absent) contributes its
signed delta to each window bucket whose cutoff its timestamp satisfies —
the buckets are cumulative, each equal (after the final 2-decimal
rounding) to the sum of deltas of retained events inside that window.  In
particular an event 7200 s old lies inside the 6h, 24h, 7d and 30d
windows but not the 1h window. -/
theorem window_summaries_cumulative :
    (∀ (now : Int) (activity : List ActivityEvent) (w : WindowName),
      getW (processRecentChanges now activity).2 w =
        round2 (windowSum now w (activity.filter (fun a => isTradeType a.type)))) ∧
    (∀ (now : Int) (a : ActivityEvent), tsOf a = now - 7200 →
      inWindow now WindowName.w1h a = false ∧
      inWindow now WindowName.w6h a = true ∧
      inWindow now WindowName.w24h a = true ∧
      inWindow now WindowName.w7d a = true ∧
      inWindow now WindowName.w30d a = true) := by
  constructor
  · intro now activity w
    have h := foldl_addWindows now w (activity.filter (fun a => isTradeType a.type))
      ⟨0, 0, 0, 0, 0⟩
    unfold processRecentChanges
    cases w <;>
      simp only [roundWS, getW] at h ⊢ <;>
      rw [h] <;>
      norm_num
  · intro now a hts
    unfold inWindow windowDur
    rw [hts]
    refine ⟨?_, ?_, ?_, ?_, ?_⟩ <;> simp <;> omega

/-- Claim C8, witness: a trade 7200 s in the past, with `now = 0`. -/
theorem window_summaries_cumulative_witness :
    inWindow 0 WindowName.w1h { timestamp := some (-7200) } = false ∧
    inWindow 0 WindowName.w6h { timestamp := some (-7200) } = true ∧
    inWindow 0 WindowName.w24h { timestamp := some (-7200) } = true ∧
    inWindow 0 WindowName.w7d { timestamp := some (-7200) } = true ∧
    inWindow 0 WindowName.w30d { timestamp := some (-7200) } = true := by
  exact window_summaries_cumulative.2 0 { timestamp := some (-7200) } (by decide)

/-! ## Portfolio builder (compute_aggregates.js, fetchAllPortfolios) -/

/-- A row of the static trader list. -/
structure Trader where
  address : String
  label : String := ""
  tier : Option String := none
deriving DecidableEq

/-- One trader's portfolio document. -/
structure TraderPortfolio where
  address : String
  label : String
  tier : String
  positions : Option (List Position)
  totalValue : ℚ
  totalPnL : ℚ
  fetchSuccess : Bool
  lastUpdated : String
deriving DecidableEq

/-- Truthiness of `result?.success` on a possibly missing batch entry. -/
def entrySuccess {α : Type} : Option (BatchEntry α) → Bool
  | some (BatchEntry.success _) => true
  | _ => false

/-- Generic assoc-list lookup, modelling `Map.get` (returns `undefined`
on a missing key). -/
def lookupEntry {α : Type} : List (String × α) → String → Option α
  | [], _ => none
  | (k, v) :: rest, key => if k = key then some v else lookupEntry rest key

/-- The per-trader body of the `for (const trader of traders)` loop in
`fetchAllPortfolios` (compute_aggregates.js lines 108-131). -/
def buildPortfolio (nowIso : String) (t : Trader)
    (posR : Option (BatchEntry (List Position)))
    (valR : Option (BatchEntry ℚ)) : TraderPortfolio :=
  let positions :=
    match posR with
    | some (BatchEntry.success d) => d
    | _ => []
  { address := t.address.toLower
    label := t.label
    tier := jsStrOr t.tier "1"
    positions := some positions
    totalValue :=
      match valR with
      | some (BatchEntry.success v) => v
      | _ => 0
    totalPnL := round2 (positions.foldl (fun s pos => s + jsNumOr pos.cashPnl pos.pnl) 0)
    fetchSuccess := entrySuccess posR && entrySuccess valR
    lastUpdated := nowIso }

/-- `fetchAllPortfolios`, after the two `batchFetch` calls produced the
positions-result and value-result maps. -/
def fetchAllPortfolios (nowIso : String) (traders : List Trader)
    (positionsResults : List (String × BatchEntry (List Position)))
    (valuesResults : List (String × BatchEntry ℚ)) : List TraderPortfolio :=
  traders.map (fun t =>
    buildPortfolio nowIso t
      (lookupEntry positionsResults t.address.toLower)
      (lookupEntry valuesResults t.address.toLower))

/-! ## Position aggregator (compute_aggregates.js, aggregatePortfolios) -/

/-- `computeExposure`: current value if present, else `|size * curPrice|`,
else `|size|`, else 0. -/
def computeExposure (pos : Position) : ℚ :=
  match pos.currentValue with
  | some v => |v|
  | none =>
    match pos.size, pos.curPrice with
    | some s, some c => |s * c|
    | some s, none => |s|
    | none, _ => 0

/-- Outcome-index resolution: the explicit field when present, else 1 for
an outcome string of "Yes" and 0 otherwise. -/
def resolveOutcomeIndex (pos : Position) : Int :=
  match pos.outcomeIndex with
  | some i => i
  | none => if pos.outcome = some "Yes" then 1 else 0

/-- Outcome-string resolution: the given string when truthy, else derived
from the resolved index (`0 → "No"`, otherwise `"Yes"`). -/
def resolveOutcomeStr (pos : Position) : String :=
  match pos.outcome with
  | some s =>
    if s = "" then (if resolveOutcomeIndex pos = 0 then "No" else "Yes") else s
  | none => if resolveOutcomeIndex pos = 0 then "No" else "Yes"

/-- One (trader, position) pair fed into the aggregation loop. -/
structure Contribution where
  address : String
  label : String
  pos : Position
deriving DecidableEq

/-- The aggregation key `conditionId + "-" + outcomeIndex`. -/
def keyOf (c : Contribution) : String :=
  c.pos.conditionId ++ "-" ++ toString (resolveOutcomeIndex c.pos)

/-- The guard `!portfolio.positions || !portfolio.fetchSuccess` —
portfolios that the aggregation loop does not skip. -/
def usablePortfolio (p : TraderPortfolio) : Bool :=
  p.positions.isSome && p.fetchSuccess

/-- The flattened sequence of contributions the nested loops visit, in
iteration order. -/
def contribsOf : List TraderPortfolio → List Contribution
  | [] => []
  | p :: rest =>
    (if usablePortfolio p then
      (p.positions.getD []).map
        (fun pos => { address := p.address, label := p.label, pos := pos })
    else []) ++ contribsOf rest

/-- One trader's contribution row pushed onto `agg.traders`. -/
structure TraderShare where
  address : String
  label : String
  exposure : ℚ
  size : ℚ
  avgPrice : ℚ
  curPrice : ℚ
deriving DecidableEq

/-- The mutable per-key accumulator stored in the `aggregated` map. -/
structure AggEntry where
  conditionId : String
  title : String
  slug : String
  icon : String
  eventSlug : String
  outcome : String
  outcomeIndex : Int
  traders : List TraderShare
  totalExposure : ℚ
  positions : List Position
  weightedAvgPriceSum : ℚ
  totalSize : ℚ
  curPrice : ℚ
deriving DecidableEq

/-- The fresh accumulator created when a key is first seen, with the
metadata of the creating position. -/
def freshEntry (c : Contribution) : AggEntry :=
  { conditionId := c.pos.conditionId
    title := jsStrOr c.pos.title "Unknown Market"
    slug := c.pos.slug.getD ""
    icon := c.pos.icon.getD ""
    eventSlug := c.pos.eventSlug.getD ""
    outcome := resolveOutcomeStr c.pos
    outcomeIndex := resolveOutcomeIndex c.pos
    traders := []
    totalExposure := 0
    positions := []
    weightedAvgPriceSum := 0
    totalSize := 0
    curPrice := 0 }

/-- Accumulating one contribution into an existing entry
(compute_aggregates.js lines 249-274). -/
def accum (e : AggEntry) (c : Contribution) : AggEntry :=
  let exposure := computeExposure c.pos
  let avgPrice := c.pos.avgPrice.getD 0
  let curPrice := c.pos.curPrice.getD 0
  let size := c.pos.size.getD 0
  { e with
    traders := e.traders ++ [⟨c.address, c.label, exposure, size, avgPrice, curPrice⟩]
    totalExposure := e.totalExposure + exposure
    positions := e.positions ++ [c.pos]
    weightedAvgPriceSum :=
      if 0 < avgPrice ∧ 0 < size then e.weightedAvgPriceSum + avgPrice * size
      else e.weightedAvgPriceSum
    totalSize := if 0 < avgPrice ∧ 0 < size then e.totalSize + size else e.totalSize
    curPrice := if 0 < curPrice then curPrice else e.curPrice }

/-- Processing one contribution against the insertion-ordered `aggregated`
map: create the entry on a fresh key, then accumulate. -/
def aggStep (m : List (String × AggEntry)) (c : Contribution) :
    List (String × AggEntry) :=
  match lookupEntry m (keyOf c) with
  | some _ => m.map (fun p => (p.1, if p.1 = keyOf c then accum p.2 c else p.2))
  | none => m ++ [(keyOf c, accum (freshEntry c) c)]

/-- The `aggregated` map after both loops of `aggregatePortfolios`. -/
def aggMap (tps : List TraderPortfolio) : List (String × AggEntry) :=
  (contribsOf tps).foldl aggStep []

/-- `changeMap.set(key, (changeMap.get(key) || 0) + delta)`. -/
def mapAdd (m : List (String × ℚ)) (k : String) (v : ℚ) : List (String × ℚ) :=
  match lookupEntry m k with
  | some _ => m.map (fun p => (p.1, if p.1 = k then p.2 + v else p.2))
  | none => m ++ [(k, v)]

/-- Outcome-index resolution for activity events (same expression as for
positions). -/
def resolveOutcomeIndexA (a : ActivityEvent) : Int :=
  match a.outcomeIndex with
  | some i => i
  | none => if a.outcome = some "Yes" then 1 else 0

/-- A JavaScript template literal renders `undefined` as the string
"undefined". -/
def jsTemplate (x : Option String) : String := x.getD "undefined"

/-- `build24hChangeMap`: signed 24h deltas keyed like the aggregation. -/
def build24hChangeMap (now : Int) (activity : List ActivityEvent) :
    List (String × ℚ) :=
  activity.foldl
    (fun m a =>
      if tsOf a < now - 24 * 3600 then m
      else if isTradeType a.type = false then m
      else mapAdd m
        (jsTemplate a.conditionId ++ "-" ++ toString (resolveOutcomeIndexA a))
        (deltaOf a))
    []

/-- One finalized aggregated position. -/
structure AggregatedPosition where
  conditionId : String
  title : String
  slug : String
  icon : String
  eventSlug : String
  outcome : String
  outcomeIndex : Int
  traderCount : Nat
  traders : List TraderShare
  totalExposure : ℚ
  change24h : ℚ
  avgEntry : ℚ
  curPrice : ℚ
  priceChangePct : ℚ
deriving DecidableEq

/-- The weighted average entry price of an accumulator before the
2-decimal output rounding: `weightedAvgPriceSum / totalSize`, or 0 when
`totalSize` is 0. -/
def preAvgEntry (e : AggEntry) : ℚ :=
  if 0 < e.totalSize then e.weightedAvgPriceSum / e.totalSize else 0

/-- Finalizing one map entry (compute_aggregates.js lines 279-308). -/
def finalize (change24hMap : List (String × ℚ)) (k : String) (e : AggEntry) :
    AggregatedPosition :=
  let avgEntry := preAvgEntry e
  let curPrice := e.curPrice
  let priceChangePct :=
    if 0 < avgEntry ∧ 0 < curPrice then (curPrice - avgEntry) / avgEntry * 100
    else 0
  { conditionId := e.conditionId
    title := e.title
    slug := e.slug
    icon := e.icon
    eventSlug := e.eventSlug
    outcome := e.outcome
    outcomeIndex := e.outcomeIndex
    traderCount := e.traders.length
    traders := e.traders
    totalExposure := e.totalExposure
    change24h := round2 ((lookupEntry change24hMap k).getD 0)
    avgEntry := round2 avgEntry
    curPrice := round2 curPrice
    priceChangePct := round1 priceChangePct }

/-- Stable insertion into a descending-by-exposure list: a later element
goes behind earlier elements of equal exposure. -/
def insertDesc (a : AggregatedPosition) :
    List AggregatedPosition → List AggregatedPosition
  | [] => [a]
  | b :: l =>
    if b.totalExposure ≤ a.totalExposure then a :: b :: l else b :: insertDesc a l

/-- `positions.sort((a, b) => b.totalExposure - a.totalExposure)`: the
ECMAScript sort is stable and this comparator is a total preorder, so its
result is the unique stable descending order, computed here by stable
insertion. -/
def sortByExposure : List AggregatedPosition → List AggregatedPosition
  | [] => []
  | a :: l => insertDesc a (sortByExposure l)

/-- `positions.reduce((sum, p) => sum + p.totalExposure, 0)`. -/
def sumExp (l : List AggregatedPosition) : ℚ :=
  l.foldl (fun s p => s + p.totalExposure) 0

/-- `new Set(...).size` via insertion-ordered deduplication. -/
def insertNew (s : List String) (x : String) : List String :=
  if x ∈ s then s else s ++ [x]

/-- `new Set(positions.map(p => p.conditionId)).size`. -/
def distinctMarketsOf (l : List AggregatedPosition) : Nat :=
  (l.foldl (fun s p => insertNew s p.conditionId) []).length

/-- Configuration fields read by the aggregator. -/
structure Config where
  min_usd_filter : Option ℚ := none
  concurrency_limit : Option Nat := none
  poll_interval_seconds : Option Nat := none
  max_recent_events : Option Nat := none
  activity_limit_per_trader : Option Nat := none
deriving DecidableEq

/-- `config.min_usd_filter || 0`. -/
def minFilterOf (cfg : Config) : ℚ := cfg.min_usd_filter.getD 0

/-- The aggregator's summary object. -/
structure Summary where
  totalExposure : ℚ
  distinctMarkets : Nat
  top1Share : ℚ
  top5Share : ℚ
  netFlow24h : ℚ
deriving DecidableEq

/-- The value of `aggregatePortfolios`. -/
structure AggResult where
  positions : List AggregatedPosition
  summary : Summary
deriving DecidableEq

/-- The finalized, sorted, unfiltered positions array (the `positions`
local of `aggregatePortfolios` after the sort, before the filter). -/
def aggPositionsAll (tps : List TraderPortfolio) (activity : List ActivityEvent)
    (now : Int) : List AggregatedPosition :=
  let change24hMap := build24hChangeMap now activity
  sortByExposure ((aggMap tps).map (fun p => finalize change24hMap p.1 p.2))

/-- `aggregatePortfolios(traderPortfolios, config, activity)`; `now` is
`Math.floor(Date.now() / 1000)`. -/
def aggregatePortfolios (tps : List TraderPortfolio) (cfg : Config)
    (activity : List ActivityEvent) (now : Int) : AggResult :=
  let positions := aggPositionsAll tps activity now
  let totalExposure := sumExp positions
  let top1Share :=
    if 0 < totalExposure then
      match positions with
      | [] => 0
      | p :: _ => p.totalExposure / totalExposure
    else 0
  let top5Share :=
    if 0 < totalExposure then sumExp (positions.take 5) / totalExposure else 0
  { positions := positions.filter (fun p => minFilterOf cfg ≤ p.totalExposure)
    summary :=
      { totalExposure := totalExposure
        distinctMarkets := distinctMarketsOf positions
        top1Share := round2 top1Share
        top5Share := round2 top5Share
        netFlow24h := 0 } }

/-! ### Aggregation-map lemmas -/

/-- Lookup distributes over an append when the key is found on the left. -/
theorem lookupEntry_append_of_some {α : Type} (m l : List (String × α))
    (key : String) (e : α) (h : lookupEntry m key = some e) :
    lookupEntry (m ++ l) key = some e := by
  induction m with
  | nil => simp [lookupEntry] at h
  | cons p rest ih =>
    rcases p with ⟨k, v⟩
    by_cases hk : k = key
    · simp only [lookupEntry, if_pos hk] at h ⊢
      exact h
    · simp only [List.cons_append, lookupEntry, if_neg hk] at h ⊢
      exact ih h

/-- Lookup falls through an append when the key is absent on the left. -/
theorem lookupEntry_append_of_none {α : Type} (m l : List (String × α))
    (key : String) (h : lookupEntry m key = none) :
    lookupEntry (m ++ l) key = lookupEntry l key := by
  induction m with
  | nil => simp
  | cons p rest ih =>
    rcases p with ⟨k, v⟩
    by_cases hk : k = key
    · simp only [lookupEntry, if_pos hk] at h
      exact Option.noConfusion h
    · simp only [List.cons_append, lookupEntry, if_neg hk] at h ⊢
      exact ih h

/-- Lookup after the in-place update `aggStep` performs on an existing
key. -/
theorem lookupEntry_map_accum (m : List (String × AggEntry)) (c : Contribution)
    (key : String) :
    lookupEntry (m.map (fun p => (p.1, if p.1 = keyOf c then accum p.2 c else p.2)))
        key =
      if key = keyOf c then (lookupEntry m key).map (fun e => accum e c)
      else lookupEntry m key := by
  induction m with
  | nil => by_cases h : key = keyOf c <;> simp [lookupEntry, h]
  | cons p rest ih =>
    rcases p with ⟨k, v⟩
    simp only [List.map_cons, lookupEntry]
    by_cases hk : k = key
    · subst hk
      by_cases hk0 : k = keyOf c <;> simp [hk0]
    · simp [hk, ih]

/-- A lookup misses exactly when the key is not among the stored keys. -/
theorem lookupEntry_eq_none_iff {α : Type} (m : List (String × α)) (key : String) :
    lookupEntry m key = none ↔ key ∉ m.map Prod.fst := by
  induction m with
  | nil => simp [lookupEntry]
  | cons p rest ih =>
    rcases p with ⟨k, v⟩
    by_cases hk : k = key
    · subst hk
      simp [lookupEntry]
    · simp only [lookupEntry, if_neg hk, List.map_cons, List.mem_cons, ih]
      constructor
      · intro h hc
        rcases hc with hc | hc
        · exact hk hc.symm
        · exact h hc
      · intro h hc
        exact h (Or.inr hc)

/-- In a map with duplicate-free keys, membership determines lookup. -/
theorem lookupEntry_of_mem {α : Type} (m : List (String × α))
    (hnd : (m.map Prod.fst).Nodup) (p : String × α) (hp : p ∈ m) :
    lookupEntry m p.1 = some p.2 := by
  induction m with
  | nil => simp at hp
  | cons q rest ih =>
    rcases q with ⟨k, v⟩
    simp only [List.map_cons, List.nodup_cons] at hnd
    rcases List.mem_cons.mp hp with h | h
    · subst h
      simp [lookupEntry]
    · have hne : ¬ k = p.1 := by
        intro hc
        exact hnd.1 (hc ▸ List.mem_map.mpr ⟨p, h, rfl⟩)
      simp only [lookupEntry, if_neg hne]
      exact ih hnd.2 h

/-- Merging an optional pre-existing accumulator with a run of
contributions: the shape `lookupEntry (aggMap …)` unfolds to. -/
def aggOf (m0 : Option AggEntry) (l : List Contribution) : Option AggEntry :=
  match m0, l with
  | some e, l => some (l.foldl accum e)
  | none, [] => none
  | none, c :: l => some (l.foldl accum (accum (freshEntry c) c))

/-- Characterization of the aggregation fold: what a key maps to is
determined by the contributions carrying that key, folded (from a fresh
accumulator seeded by the first such contribution) in encounter order. -/
theorem lookup_foldl_aggStep :
    ∀ (cs : List Contribution) (m : List (String × AggEntry)) (key : String),
      lookupEntry (cs.foldl aggStep m) key =
        aggOf (lookupEntry m key) (cs.filter (fun c => keyOf c = key)) := by
  intro cs
  induction cs with
  | nil =>
    intro m key
    cases h : lookupEntry m key <;> simp [aggOf, h]
  | cons c cs ih =>
    intro m key
    rw [List.foldl_cons, ih (aggStep m c) key]
    by_cases hkc : keyOf c = key
    · subst hkc
      cases hm : lookupEntry m (keyOf c) with
      | some e =>
        have hstep : lookupEntry (aggStep m c) (keyOf c) = some (accum e c) := by
          simp only [aggStep, hm]
          simp [lookupEntry_map_accum, hm]
        rw [hstep]
        simp [aggOf, List.filter_cons]
      | none =>
        have hstep : lookupEntry (aggStep m c) (keyOf c) =
            some (accum (freshEntry c) c) := by
          simp only [aggStep, hm]
          rw [lookupEntry_append_of_none m _ _ hm]
          simp [lookupEntry]
        rw [hstep]
        simp [aggOf, List.filter_cons]
    · have hfilter : List.filter (fun c' => decide (keyOf c' = key)) (c :: cs) =
          List.filter (fun c' => decide (keyOf c' = key)) cs := by
        simp [List.filter_cons, hkc]
      have hstep : lookupEntry (aggStep m c) key = lookupEntry m key := by
        cases hm : lookupEntry m (keyOf c) with
        | some e =>
          simp only [aggStep, hm, lookupEntry_map_accum]
          rw [if_neg]
          intro h
          exact hkc h.symm
        | none =>
          simp only [aggStep, hm]
          cases hkey : lookupEntry m key with
          | some e2 => exact lookupEntry_append_of_some m _ key e2 hkey
          | none =>
            rw [lookupEntry_append_of_none m _ _ hkey]
            simp [lookupEntry, hkc]
      rw [hstep, hfilter]

/-- `aggStep` keeps the stored key list duplicate-free. -/
theorem aggMap_keys_nodup :
    ∀ (cs : List Contribution) (m : List (String × AggEntry)),
      (m.map Prod.fst).Nodup → ((cs.foldl aggStep m).map Prod.fst).Nodup := by
  intro cs
  induction cs with
  | nil => intro m h; simpa using h
  | cons c cs ih =>
    intro m h
    rw [List.foldl_cons]
    apply ih
    cases hm : lookupEntry m (keyOf c) with
    | some e =>
      have hkeys : (m.map (fun p =>
          ((p.1 : String), if p.1 = keyOf c then accum p.2 c else p.2))).map Prod.fst =
          m.map Prod.fst := by
        rw [List.map_map]
        rfl
      simp only [aggStep, hm, hkeys]
      exact h
    | none =>
      have hnotmem : keyOf c ∉ m.map Prod.fst := (lookupEntry_eq_none_iff m _).mp hm
      simp only [aggStep, hm, List.map_append, List.map_cons, List.map_nil]
      rw [List.nodup_append]
      refine ⟨h, List.nodup_singleton _, ?_⟩
      intro x hx hx1
      simp only [List.mem_singleton] at hx1
      subst hx1
      exact hnotmem hx

/-! ### Component lemmas for the accumulator fold -/

/-- Reference sum of the sizes of qualifying contributions
(`avgPrice > 0 ∧ size > 0`). -/
def specSizeSum : List Contribution → ℚ
  | [] => 0
  | c :: l =>
    (if 0 < c.pos.avgPrice.getD 0 ∧ 0 < c.pos.size.getD 0
     then c.pos.size.getD 0 else 0) + specSizeSum l

/-- Reference sum of `avgPrice * size` over qualifying contributions. -/
def specWeightedSum : List Contribution → ℚ
  | [] => 0
  | c :: l =>
    (if 0 < c.pos.avgPrice.getD 0 ∧ 0 < c.pos.size.getD 0
     then c.pos.avgPrice.getD 0 * c.pos.size.getD 0 else 0) + specWeightedSum l

/-- Reference sum of exposures over all contributions. -/
def specExpSum : List Contribution → ℚ
  | [] => 0
  | c :: l => computeExposure c.pos + specExpSum l

/-- The fold accumulates `totalSize` as the qualifying-size sum. -/
theorem foldl_accum_totalSize :
    ∀ (l : List Contribution) (e : AggEntry),
      (l.foldl accum e).totalSize = e.totalSize + specSizeSum l := by
  intro l
  induction l with
  | nil => intro e; simp [specSizeSum]
  | cons c l ih =>
    intro e
    rw [List.foldl_cons, ih]
    simp only [specSizeSum]
    by_cases h : 0 < c.pos.avgPrice.getD 0 ∧ 0 < c.pos.size.getD 0
    · simp [accum, h]
      ring
    · simp [accum, h]

/-- The fold accumulates `weightedAvgPriceSum` as the qualifying
`avgPrice * size` sum. -/
theorem foldl_accum_weightedSum :
    ∀ (l : List Contribution) (e : AggEntry),
      (l.foldl accum e).weightedAvgPriceSum =
        e.weightedAvgPriceSum + specWeightedSum l := by
  intro l
  induction l with
  | nil => intro e; simp [specWeightedSum]
  | cons c l ih =>
    intro e
    rw [List.foldl_cons, ih]
    simp only [specWeightedSum]
    by_cases h : 0 < c.pos.avgPrice.getD 0 ∧ 0 < c.pos.size.getD 0
    · simp [accum, h]
      ring
    · simp [accum, h]

/-- The fold accumulates `totalExposure` as the exposure sum. -/
theorem foldl_accum_totalExposure :
    ∀ (l : List Contribution) (e : AggEntry),
      (l.foldl accum e).totalExposure = e.totalExposure + specExpSum l := by
  intro l
  induction l with
  | nil => intro e; simp [specExpSum]
  | cons c l ih =>
    intro e
    rw [List.foldl_cons, ih]
    simp only [specExpSum]
    simp [accum]
    ring

/-- The fold never touches the metadata fields set at creation. -/
theorem foldl_accum_meta :
    ∀ (l : List Contribution) (e : AggEntry),
      (l.foldl accum e).outcome = e.outcome ∧
      (l.foldl accum e).outcomeIndex = e.outcomeIndex ∧
      (l.foldl accum e).conditionId = e.conditionId := by
  intro l
  induction l with
  | nil => intro e; exact ⟨rfl, rfl, rfl⟩
  | cons c l ih =>
    intro e
    rw [List.foldl_cons]
    rcases ih (accum e c) with ⟨h1, h2, h3⟩
    rw [h1, h2, h3]
    simp [accum]

/-- Exposure is an absolute value (or 0), hence nonnegative. -/
theorem computeExposure_nonneg (pos : Position) : 0 ≤ computeExposure pos := by
  unfold computeExposure
  cases pos.currentValue with
  | some v => exact abs_nonneg v
  | none =>
    cases pos.size with
    | none => exact le_refl 0
    | some s =>
      cases pos.curPrice with
      | some cp => exact abs_nonneg _
      | none => exact abs_nonneg _

/-- The exposure sum is nonnegative. -/
theorem specExpSum_nonneg (l : List Contribution) : 0 ≤ specExpSum l := by
  induction l with
  | nil => exact le_refl 0
  | cons c l ih =>
    simp only [specExpSum]
    have := computeExposure_nonneg c.pos
    linarith

/-- The qualifying-size sum is nonnegative. -/
theorem specSizeSum_nonneg (l : List Contribution) : 0 ≤ specSizeSum l := by
  induction l with
  | nil => exact le_refl 0
  | cons c l ih =>
    simp only [specSizeSum]
    by_cases h : 0 < c.pos.avgPrice.getD 0 ∧ 0 < c.pos.size.getD 0
    · rw [if_pos h]
      linarith [h.2]
    · rw [if_neg h]
      linarith

/-! ### Sum and sort lemmas -/

/-- Peeling a `reduce` seed. -/
theorem sumExp_shift (l : List AggregatedPosition) :
    ∀ s : ℚ, l.foldl (fun t p => t + p.totalExposure) s = s + sumExp l := by
  induction l with
  | nil => intro s; simp [sumExp]
  | cons p l ih =>
    intro s
    rw [List.foldl_cons, ih]
    have h2 : sumExp (p :: l) = p.totalExposure + sumExp l := by
      show List.foldl (fun s p => s + p.totalExposure) 0 (p :: l) = _
      rw [List.foldl_cons, ih]
      ring
    rw [h2]
    ring

/-- `sumExp` over a cons. -/
theorem sumExp_cons (p : AggregatedPosition) (l : List AggregatedPosition) :
    sumExp (p :: l) = p.totalExposure + sumExp l := by
  show List.foldl (fun s p => s + p.totalExposure) 0 (p :: l) = _
  rw [List.foldl_cons, sumExp_shift]
  ring

/-- A list's exposure sum splits into the kept and dropped parts of any
filter. -/
theorem sumExp_filter_split (P : AggregatedPosition → Bool)
    (l : List AggregatedPosition) :
    sumExp l = sumExp (l.filter P) + sumExp (l.filter (fun p => ! P p)) := by
  induction l with
  | nil => simp [sumExp]
  | cons p l ih =>
    by_cases h : P p = true
    · simp only [List.filter_cons, h, Bool.not_true, if_true, sumExp_cons]
      simp [sumExp_cons, ih]
      ring
    · have h' : P p = false := by simpa using h
      simp only [List.filter_cons, h', Bool.not_false, sumExp_cons]
      simp [sumExp_cons, ih]
      ring

/-- A sum of nonnegative exposures is nonnegative. -/
theorem sumExp_nonneg (l : List AggregatedPosition)
    (h : ∀ p ∈ l, 0 ≤ p.totalExposure) : 0 ≤ sumExp l := by
  induction l with
  | nil => simp [sumExp]
  | cons p l ih =>
    rw [sumExp_cons]
    have h1 := h p (List.mem_cons_self p l)
    have h2 := ih (fun q hq => h q (List.mem_cons_of_mem p hq))
    linarith

/-- A sum of nonnegative exposures vanishes exactly when every term
does. -/
theorem sumExp_eq_zero_iff (l : List AggregatedPosition)
    (h : ∀ p ∈ l, 0 ≤ p.totalExposure) :
    sumExp l = 0 ↔ ∀ p ∈ l, p.totalExposure = 0 := by
  induction l with
  | nil => simp [sumExp]
  | cons p l ih =>
    rw [sumExp_cons]
    have h1 := h p (List.mem_cons_self p l)
    have htail : ∀ q ∈ l, 0 ≤ q.totalExposure :=
      fun q hq => h q (List.mem_cons_of_mem p hq)
    have h2 := sumExp_nonneg l htail
    rw [List.forall_mem_cons]
    constructor
    · intro hz
      have hp0 : p.totalExposure = 0 := by linarith
      have hl0 : sumExp l = 0 := by linarith
      exact ⟨hp0, (ih htail).mp hl0⟩
    · intro ⟨hp0, hall⟩
      rw [hp0, (ih htail).mpr hall]
      ring

/-- Stable insertion only rearranges. -/
theorem mem_insertDesc (a p : AggregatedPosition) (l : List AggregatedPosition) :
    p ∈ insertDesc a l ↔ p = a ∨ p ∈ l := by
  induction l with
  | nil => simp [insertDesc]
  | cons b l ih =>
    by_cases h : b.totalExposure ≤ a.totalExposure
    · simp [insertDesc, h]
    · simp only [insertDesc, if_neg h, List.mem_cons, ih]
      tauto

/-- The stable sort only rearranges. -/
theorem mem_sortByExposure (p : AggregatedPosition) (l : List AggregatedPosition) :
    p ∈ sortByExposure l ↔ p ∈ l := by
  induction l with
  | nil => simp [sortByExposure]
  | cons a l ih =>
    simp only [sortByExposure, mem_insertDesc, List.mem_cons, ih]

/-- Sorting preserves the exposure sum. -/
theorem sumExp_insertDesc (a : AggregatedPosition) (l : List AggregatedPosition) :
    sumExp (insertDesc a l) = a.totalExposure + sumExp l := by
  induction l with
  | nil => simp [insertDesc, sumExp_cons, sumExp]
  | cons b l ih =>
    by_cases h : b.totalExposure ≤ a.totalExposure
    · simp [insertDesc, h, sumExp_cons]
    · simp only [insertDesc, if_neg h, sumExp_cons, ih]
      ring

/-- The sort preserves the exposure sum. -/
theorem sumExp_sortByExposure (l : List AggregatedPosition) :
    sumExp (sortByExposure l) = sumExp l := by
  induction l with
  | nil => rfl
  | cons a l ih =>
    simp only [sortByExposure, sumExp_insertDesc, sumExp_cons, ih]

/-! ### Per-key characterization -/

/-- An entry found in the aggregation map is the fold of the
contributions carrying its key, seeded by the first of them. -/
theorem aggMap_entry_char (tps : List TraderPortfolio) (key : String) (e : AggEntry)
    (h : lookupEntry (aggMap tps) key = some e) :
    ∃ c rest, (contribsOf tps).filter (fun c' => keyOf c' = key) = c :: rest ∧
      e = rest.foldl accum (accum (freshEntry c) c) := by
  rw [aggMap, lookup_foldl_aggStep] at h
  cases hl : (contribsOf tps).filter (fun c' => keyOf c' = key) with
  | nil =>
    rw [hl] at h
    simp [aggOf, lookupEntry] at h
  | cons c rest =>
    rw [hl] at h
    simp only [lookupEntry, aggOf, Option.some.injEq] at h
    exact ⟨c, rest, rfl, h.symm⟩

/-! ## Claim C5 -/

/-- Filtering out the portfolios the aggregation loop skips leaves the
contribution sequence unchanged. -/
theorem contribsOf_filter (tps : List TraderPortfolio) :
    contribsOf (tps.filter usablePortfolio) = contribsOf tps := by
  induction tps with
  | nil => rfl
  | cons p rest ih =>
    by_cases h : usablePortfolio p = true
    · simp only [List.filter_cons, h, if_true, contribsOf, ih]
    · have h' : usablePortfolio p = false := by simpa using h
      rw [List.filter_cons, if_neg (by simp [h']), ih]
      simp [contribsOf, h']

/-- Claim C5: `fetchSuccess` is true exactly when both the positions
fetch and the value fetch succeeded, and `aggregatePortfolios` reads only
portfolios with `fetchSuccess` true and a positions array — removing the
skipped portfolios up front leaves its entire output unchanged, so such a
trader contributes nothing to any aggregated position. -/
theorem portfolio_fetchSuccess_and_aggregation_skip :
    (∀ (nowIso : String) (t : Trader) (posR : Option (BatchEntry (List Position)))
        (valR : Option (BatchEntry ℚ)),
      (buildPortfolio nowIso t posR valR).fetchSuccess = true ↔
        (∃ d, posR = some (BatchEntry.success d)) ∧
        (∃ v, valR = some (BatchEntry.success v))) ∧
    (∀ (tps : List TraderPortfolio) (cfg : Config) (activity : List ActivityEvent)
        (now : Int),
      aggregatePortfolios tps cfg activity now =
        aggregatePortfolios (tps.filter usablePortfolio) cfg activity now) := by
  constructor
  · intro nowIso t posR valR
    simp only [buildPortfolio, Bool.and_eq_true]
    constructor
    · intro hb
      rcases hb with ⟨h1, h2⟩
      constructor
      · cases posR with
        | none => simp [entrySuccess] at h1
        | some b =>
          cases b with
          | success d => exact ⟨d, rfl⟩
          | failure m => simp [entrySuccess] at h1
      · cases valR with
        | none => simp [entrySuccess] at h2
        | some b =>
          cases b with
          | success v => exact ⟨v, rfl⟩
          | failure m => simp [entrySuccess] at h2
    · intro hb
      rcases hb with ⟨⟨d, hd⟩, ⟨v, hv⟩⟩
      subst hd
      subst hv
      exact ⟨rfl, rfl⟩
  · intro tps cfg activity now
    unfold aggregatePortfolios aggPositionsAll aggMap
    rw [contribsOf_filter]

/-! ## Claim C6 -/

/-- The size-weighted average entry price as the specification states it:
`Σ(avgPrice*size) / Σ(size)` over the qualifying contributions, 0 when
the size sum is 0. -/
def specAvgEntry (l : List Contribution) : ℚ :=
  if specSizeSum l = 0 then 0 else specWeightedSum l / specSizeSum l

/-- Claim C6: for every aggregated key, the accumulator's `totalSize` and
`weightedAvgPriceSum` are exactly the sums over the contributing
positions with `avgPrice > 0` and `size > 0`, the pre-rounding `avgEntry`
is their quotient (0 when the size sum is 0), and the emitted `avgEntry`
is its 2-decimal rounding. -/
theorem avgEntry_weighted_average (tps : List TraderPortfolio) (key : String)
    (e : AggEntry) (h : lookupEntry (aggMap tps) key = some e) :
    e.totalSize = specSizeSum ((contribsOf tps).filter (fun c => keyOf c = key)) ∧
    e.weightedAvgPriceSum =
      specWeightedSum ((contribsOf tps).filter (fun c => keyOf c = key)) ∧
    preAvgEntry e = specAvgEntry ((contribsOf tps).filter (fun c => keyOf c = key)) ∧
    ∀ cmap : List (String × ℚ),
      (finalize cmap key e).avgEntry =
        round2 (specAvgEntry ((contribsOf tps).filter (fun c => keyOf c = key))) := by
  obtain ⟨c, rest, hl, he⟩ := aggMap_entry_char tps key e h
  rw [hl]
  have hsize : e.totalSize = specSizeSum (c :: rest) := by
    rw [he, foldl_accum_totalSize]
    simp only [specSizeSum]
    by_cases hq : 0 < c.pos.avgPrice.getD 0 ∧ 0 < c.pos.size.getD 0
    · simp [accum, freshEntry, hq]
    · simp [accum, freshEntry, hq]
  have hws : e.weightedAvgPriceSum = specWeightedSum (c :: rest) := by
    rw [he, foldl_accum_weightedSum]
    simp only [specWeightedSum]
    by_cases hq : 0 < c.pos.avgPrice.getD 0 ∧ 0 < c.pos.size.getD 0
    · simp [accum, freshEntry, hq]
    · simp [accum, freshEntry, hq]
  have hpre : preAvgEntry e = specAvgEntry (c :: rest) := by
    have hnn := specSizeSum_nonneg (c :: rest)
    by_cases hz : specSizeSum (c :: rest) = 0
    · simp [preAvgEntry, specAvgEntry, hz, hsize]
    · have hpos : 0 < specSizeSum (c :: rest) := lt_of_le_of_ne hnn (Ne.symm hz)
      simp [preAvgEntry, specAvgEntry, hz, hsize, hws, hpos]
  refine ⟨hsize, hws, hpre, ?_⟩
  intro cmap
  simp only [finalize]
  rw [hpre]

/-- Position of the first C6 example trader: avgPrice 0.40, size 100. -/
def posC6A : Position :=
  { conditionId := "m", outcomeIndex := some 1, size := some 100,
    avgPrice := some (2 / 5), currentValue := some 40 }

/-- Position of the second C6 example trader: avgPrice 0.60, size 50. -/
def posC6B : Position :=
  { conditionId := "m", outcomeIndex := some 1, size := some 50,
    avgPrice := some (3 / 5), currentValue := some 30 }

/-- Two successfully fetched portfolios holding the same market outcome. -/
def tpsC6 : List TraderPortfolio :=
  [{ address := "0xa", label := "A", tier := "1", positions := some [posC6A],
     totalValue := 0, totalPnL := 0, fetchSuccess := true, lastUpdated := "" },
   { address := "0xb", label := "B", tier := "1", positions := some [posC6B],
     totalValue := 0, totalPnL := 0, fetchSuccess := true, lastUpdated := "" }]

/-- The accumulator the aggregation builds for key `m-1` on `tpsC6`. -/
def entryC6 : AggEntry :=
  { conditionId := "m", title := "Unknown Market", slug := "", icon := "",
    eventSlug := "", outcome := "Yes", outcomeIndex := 1,
    traders := [⟨"0xa", "A", 40, 100, 2 / 5, 0⟩, ⟨"0xb", "B", 30, 50, 3 / 5, 0⟩],
    totalExposure := 70, positions := [posC6A, posC6B],
    weightedAvgPriceSum := 70, totalSize := 150, curPrice := 0 }

/-- Claim C6, witness: the two contributions (0.40, 100) and (0.60, 50)
weight-average to `(0.40*100 + 0.60*50) / 150 = 7/15` before rounding. -/
theorem avgEntry_weighted_average_witness :
    preAvgEntry entryC6 =
      specAvgEntry ((contribsOf tpsC6).filter (fun c => keyOf c = "m-1")) ∧
    preAvgEntry entryC6 = 7 / 15 := by
  have hfilter : (contribsOf tpsC6).filter (fun c => keyOf c = "m-1") =
      [⟨"0xa", "A", posC6A⟩, ⟨"0xb", "B", posC6B⟩] := by rfl
  have hlookup : lookupEntry (aggMap tpsC6) "m-1" = some entryC6 := by
    rw [aggMap, lookup_foldl_aggStep, hfilter]
    simp only [lookupEntry, aggOf, List.foldl_cons, List.foldl_nil, Option.some.injEq]
    norm_num [accum, freshEntry, computeExposure, resolveOutcomeStr,
      resolveOutcomeIndex, jsStrOr, posC6A, posC6B, entryC6, AggEntry.mk.injEq]
  constructor
  · exact (avgEntry_weighted_average tpsC6 "m-1" entryC6 hlookup).2.2.1
  · norm_num [preAvgEntry, entryC6]

/-! ## Claim C7 -/

/-- Every accumulator in the aggregation map has a nonnegative exposure
total (it is a sum of absolute values). -/
theorem aggEntry_totalExposure_nonneg (tps : List TraderPortfolio) (k : String)
    (e : AggEntry) (h : lookupEntry (aggMap tps) k = some e) :
    0 ≤ e.totalExposure := by
  obtain ⟨c, rest, hl, he⟩ := aggMap_entry_char tps k e h
  rw [he, foldl_accum_totalExposure]
  have h1 : (accum (freshEntry c) c).totalExposure = computeExposure c.pos := by
    simp [accum, freshEntry]
  rw [h1]
  have h2 := computeExposure_nonneg c.pos
  have h3 := specExpSum_nonneg rest
  linarith

/-- Every finalized (sorted, unfiltered) position has a nonnegative
exposure total. -/
theorem aggPositionsAll_nonneg (tps : List TraderPortfolio)
    (activity : List ActivityEvent) (now : Int) :
    ∀ p ∈ aggPositionsAll tps activity now, 0 ≤ p.totalExposure := by
  intro p hp
  simp only [aggPositionsAll] at hp
  rw [mem_sortByExposure] at hp
  rcases List.mem_map.mp hp with ⟨q, hq, hfq⟩
  have hnd : ((aggMap tps).map Prod.fst).Nodup := by
    rw [aggMap]
    exact aggMap_keys_nodup (contribsOf tps) [] (by simp)
  have hlookup : lookupEntry (aggMap tps) q.1 = some q.2 :=
    lookupEntry_of_mem (aggMap tps) hnd q hq
  have hnn := aggEntry_totalExposure_nonneg tps q.1 q.2 hlookup
  rw [← hfq]
  simpa [finalize] using hnn

/-- Claim C7, amended.  The summary's `totalExposure` is computed over
the unfiltered aggregated positions, so it is always at least the sum of
`totalExposure` over the emitted (post-filter) positions; equality holds
exactly when every position filtered out has `totalExposure = 0` — in
particular whenever nothing is filtered, but also when a zero-exposure
position is dropped. -/
theorem summary_totalExposure_pre_filter (tps : List TraderPortfolio) (cfg : Config)
    (activity : List ActivityEvent) (now : Int) :
    sumExp (aggregatePortfolios tps cfg activity now).positions ≤
      (aggregatePortfolios tps cfg activity now).summary.totalExposure ∧
    ((aggregatePortfolios tps cfg activity now).summary.totalExposure =
        sumExp (aggregatePortfolios tps cfg activity now).positions ↔
      ∀ p ∈ aggPositionsAll tps activity now,
        p.totalExposure < minFilterOf cfg → p.totalExposure = 0) := by
  have hpos : (aggregatePortfolios tps cfg activity now).positions =
      (aggPositionsAll tps activity now).filter
        (fun p => minFilterOf cfg ≤ p.totalExposure) := by
    simp [aggregatePortfolios]
  have hsum : (aggregatePortfolios tps cfg activity now).summary.totalExposure =
      sumExp (aggPositionsAll tps activity now) := by
    simp [aggregatePortfolios]
  have hL := aggPositionsAll_nonneg tps activity now
  have hsplit := sumExp_filter_split
    (fun p => minFilterOf cfg ≤ p.totalExposure) (aggPositionsAll tps activity now)
  have hdropnn : 0 ≤ sumExp ((aggPositionsAll tps activity now).filter
      (fun p => ! decide (minFilterOf cfg ≤ p.totalExposure))) := by
    apply sumExp_nonneg
    intro p hp
    exact hL p (List.mem_of_mem_filter hp)
  have hdrop_iff : (sumExp ((aggPositionsAll tps activity now).filter
      (fun p => ! decide (minFilterOf cfg ≤ p.totalExposure))) = 0 ↔
      ∀ p ∈ aggPositionsAll tps activity now,
        p.totalExposure < minFilterOf cfg → p.totalExposure = 0) := by
    rw [sumExp_eq_zero_iff _ (fun p hp => hL p (List.mem_of_mem_filter hp))]
    constructor
    · intro hall p hp hlt
      apply hall
      rw [List.mem_filter]
      refine ⟨hp, ?_⟩
      simp [not_le.mpr hlt]
    · intro hall p hp
      rw [List.mem_filter] at hp
      rcases hp with ⟨hp1, hp2⟩
      simp only [Bool.not_eq_true', decide_eq_false_iff_not, not_le] at hp2
      exact hall p hp1 hp2
  constructor
  · rw [hpos, hsum]
    linarith [hsplit]
  · rw [hpos, hsum, ← hdrop_iff]
    constructor
    · intro heq
      linarith [hsplit]
    · intro hz
      linarith [hsplit]

/-- A position currently worth 0. -/
def posC7 : Position :=
  { conditionId := "m", outcomeIndex := some 1, currentValue := some 0 }

/-- A portfolio holding only the zero-value position. -/
def tpsC7 : List TraderPortfolio :=
  [{ address := "0xd", label := "D", tier := "1", positions := some [posC7],
     totalValue := 0, totalPnL := 0, fetchSuccess := true, lastUpdated := "" }]

/-- Claim C7, counterexample.  With `min_usd_filter = 50` and a single
position of exposure 0, the summary `totalExposure` equals the sum over
the emitted positions (both 0) even though a position WAS filtered out:
the claimed "equality iff no position was filtered" is false. -/
theorem summary_filter_equality_cex :
    (aggregatePortfolios tpsC7 { min_usd_filter := some 50 } [] 0).summary.totalExposure =
      sumExp (aggregatePortfolios tpsC7 { min_usd_filter := some 50 } [] 0).positions ∧
    (aggregatePortfolios tpsC7 { min_usd_filter := some 50 } [] 0).positions = [] ∧
    (aggPositionsAll tpsC7 [] 0).length = 1 := by
  norm_num [aggregatePortfolios, aggPositionsAll, aggMap, contribsOf,
    usablePortfolio, aggStep, lookupEntry, accum, freshEntry, keyOf,
    resolveOutcomeIndex, resolveOutcomeStr, jsStrOr, computeExposure, tpsC7,
    posC7, sortByExposure, insertDesc, finalize, build24hChangeMap, minFilterOf,
    preAvgEntry, sumExp, round2, round1, jsRound]

/-! ## Claim C9 -/

/-- A position whose explicit fields contradict each other:
`outcomeIndex = 0` but `outcome = "Yes"`. -/
def posC9 : Position :=
  { conditionId := "m", outcomeIndex := some 0, outcome := some "Yes",
    currentValue := some 5 }

/-- A successfully fetched portfolio holding only the inconsistent
position. -/
def tpsC9 : List TraderPortfolio :=
  [{ address := "0xc", label := "C", tier := "1", positions := some [posC9],
     totalValue := 0, totalPnL := 0, fetchSuccess := true, lastUpdated := "" }]

/-- Claim C9, counterexample.  When `outcomeIndex` and `outcome` are both
given but inconsistent, the emitted aggregated position keeps the given
string: it carries `outcomeIndex = 0` together with `outcome = "Yes"`,
NOT the "No" the index would dictate — the outcome string is only derived
from the index when it is absent, so the claimed agreement invariant is
false. -/
theorem outcome_disagreement_cex :
    ((aggregatePortfolios tpsC9 {} [] 0).positions.map
        (fun p => (p.outcomeIndex, p.outcome))) = [((0 : Int), "Yes")] := by
  norm_num [aggregatePortfolios, aggPositionsAll, aggMap, contribsOf,
    usablePortfolio, aggStep, lookupEntry, accum, freshEntry, keyOf,
    resolveOutcomeIndex, resolveOutcomeStr, jsStrOr, computeExposure, tpsC9,
    posC9, sortByExposure, insertDesc, finalize, build24hChangeMap, minFilterOf,
    preAvgEntry, round2, round1, jsRound]
  intro h
  exact absurd h (by decide)

/-- Claim C9, amended.  The index is resolved from the explicit field
(else 1 for "Yes", 0 otherwise) and every emitted aggregated position
carries the resolved index and string of a contributing position; the
string is derived from the index — and hence agrees with it — only when
the position's own outcome string is absent or empty, while a non-empty
given string is kept verbatim even when it contradicts the index. -/
theorem outcome_resolution_amended (tps : List TraderPortfolio)
    (activity : List ActivityEvent) (now : Int) (p : AggregatedPosition)
    (hp : p ∈ aggPositionsAll tps activity now) :
    ∃ c ∈ contribsOf tps,
      p.outcomeIndex = resolveOutcomeIndex c.pos ∧
      p.outcome = resolveOutcomeStr c.pos ∧
      ((c.pos.outcome = none ∨ c.pos.outcome = some "") →
        p.outcome = (if p.outcomeIndex = 0 then "No" else "Yes")) ∧
      (∀ s, c.pos.outcome = some s → s ≠ "" → p.outcome = s) := by
  simp only [aggPositionsAll] at hp
  rw [mem_sortByExposure] at hp
  rcases List.mem_map.mp hp with ⟨q, hq, hfq⟩
  have hnd : ((aggMap tps).map Prod.fst).Nodup := by
    rw [aggMap]
    exact aggMap_keys_nodup (contribsOf tps) [] (by simp)
  have hlookup : lookupEntry (aggMap tps) q.1 = some q.2 :=
    lookupEntry_of_mem (aggMap tps) hnd q hq
  obtain ⟨c, rest, hl, he⟩ := aggMap_entry_char tps q.1 q.2 hlookup
  have hcmem : c ∈ contribsOf tps := by
    have hcf : c ∈ (contribsOf tps).filter (fun c' => keyOf c' = q.1) := by
      rw [hl]
      exact List.mem_cons_self c rest
    exact List.mem_of_mem_filter hcf
  have hmeta := foldl_accum_meta rest (accum (freshEntry c) c)
  have hidx : q.2.outcomeIndex = resolveOutcomeIndex c.pos := by
    rw [he, hmeta.2.1]
    simp [accum, freshEntry]
  have hout : q.2.outcome = resolveOutcomeStr c.pos := by
    rw [he, hmeta.1]
    simp [accum, freshEntry]
  have hpidx : p.outcomeIndex = resolveOutcomeIndex c.pos := by
    rw [← hfq]
    simpa [finalize] using hidx
  have hpout : p.outcome = resolveOutcomeStr c.pos := by
    rw [← hfq]
    simpa [finalize] using hout
  refine ⟨c, hcmem, hpidx, hpout, ?_, ?_⟩
  · intro habsent
    rw [hpout, hpidx]
    rcases habsent with h | h <;> simp [resolveOutcomeStr, h]
  · intro s hs hne
    rw [hpout]
    simp [resolveOutcomeStr, hs, hne]

/-- The single aggregated position `tpsC9` produces. -/
def aggPosC9 : AggregatedPosition :=
  { conditionId := "m", title := "Unknown Market", slug := "", icon := "",
    eventSlug := "", outcome := "Yes", outcomeIndex := 0, traderCount := 1,
    traders := [⟨"0xc", "C", 5, 0, 0, 0⟩], totalExposure := 5, change24h := 0,
    avgEntry := 0, curPrice := 0, priceChangePct := 0 }

/-- Claim C9, witness: the amended theorem instantiated on the
inconsistent position — the emitted entry carries the resolved pair of
the contributing position, whose non-empty string "Yes" is kept. -/
theorem outcome_resolution_amended_witness :
    ∃ c ∈ contribsOf tpsC9,
      aggPosC9.outcomeIndex = resolveOutcomeIndex c.pos ∧
      aggPosC9.outcome = resolveOutcomeStr c.pos ∧
      ((c.pos.outcome = none ∨ c.pos.outcome = some "") →
        aggPosC9.outcome = (if aggPosC9.outcomeIndex = 0 then "No" else "Yes")) ∧
      (∀ s, c.pos.outcome = some s → s ≠ "" → aggPosC9.outcome = s) := by
  apply outcome_resolution_amended tpsC9 [] 0 aggPosC9
  have hall : aggPositionsAll tpsC9 [] 0 = [aggPosC9] := by
    norm_num [aggPositionsAll, aggMap, contribsOf, usablePortfolio, aggStep,
      lookupEntry, accum, freshEntry, keyOf, resolveOutcomeIndex,
      resolveOutcomeStr, jsStrOr, computeExposure, tpsC9, posC9, sortByExposure,
      insertDesc, finalize, build24hChangeMap, preAvgEntry, round2, round1,
      jsRound, aggPosC9]
    intro h
    exact absurd h (by decide)
  rw [hall]
  exact List.mem_singleton.mpr rfl
